import Mathlib

/-!
Verification development for the pulse-train psychophysics experiment code
(`pulses.py`, `experiment.py`).  The Python functions are embedded shallowly:

* machine floats become rationals (`ℚ`);
* the external sampling primitive `cregg.flexible_values` and the numpy RNG
  draws are modelled as explicit streams of sampled values (`ℕ → ℚ`, `Bool`);
* unbounded `while` loops take an explicit `fuel` bound; running out of fuel
  yields the accumulator (or `none` where the code would otherwise spin);
* `NaN`-initialized result fields become `Option`.
-/

namespace Pulses

/-- Python `int()` applied to a rational: truncation toward zero. -/
def truncInt (q : ℚ) : ℤ := if 0 ≤ q then ⌊q⌋ else -⌊-q⌋

/-- Model of `np.round` on a rational: nearest integer, ties to even. -/
def nround (q : ℚ) : ℤ :=
  let f := ⌊q⌋
  let r := q - (f : ℚ)
  if r < 1 / 2 then f
  else if 1 / 2 < r then f + 1
  else if f % 2 = 0 then f else f + 1

theorem truncInt_of_nonneg {q : ℚ} (h : 0 ≤ q) : truncInt q = ⌊q⌋ := by
  simp [truncInt, h]

theorem nround_nonneg {q : ℚ} (h : 0 ≤ q) : 0 ≤ nround q := by
  have hf : (0 : ℤ) ≤ ⌊q⌋ := Int.floor_nonneg.mpr h
  unfold nround
  dsimp only
  split
  · exact hf
  · split
    · omega
    · split
      · exact hf
      · omega

/-!
### `pulse_onsets` (src/pulses.py)

The Python function samples one pulse duration (`pulse_secs`), converts it to
(fractional) flips, then runs a `while True` loop: each iteration samples an
inter-pulse interval `gap k`, converts it with `int(np.round(ipi * refresh_hz))`
to whole flips, computes `next_pulse = last_pulse + pulse_flips + ipi_flips`,
and stops (without appending) as soon as `next_pulse + pulse_flips` exceeds
`trial_flips`; otherwise it appends `int(next_pulse)`.  The list always starts
as `[0]`.  The loop is modelled with `fuel` bounding the iteration count; the
accumulator holds the onsets in reverse order.
-/

/-- The `while` loop of `pulse_onsets`; `acc` holds the scheduled onsets in
reverse order (most recent first), `k` indexes the gap-sample stream. -/
def pulseOnsetsLoop (pulse_flips trial_flips refresh_hz : ℚ) (gap : ℕ → ℚ) :
    ℕ → ℕ → List ℤ → List ℤ
  | 0, _, acc => acc
  | fuel + 1, k, acc =>
    let last_pulse : ℤ := acc.headI
    let ipi_flips : ℤ := nround (gap k * refresh_hz)
    let next_pulse : ℚ := (last_pulse : ℚ) + pulse_flips + (ipi_flips : ℚ)
    if trial_flips < next_pulse + pulse_flips then acc
    else
      pulseOnsetsLoop pulse_flips trial_flips refresh_hz gap fuel (k + 1)
        (truncInt next_pulse :: acc)

/-- Embedding of `pulse_onsets(p, refresh_hz, trial_flips)`: `pulse_secs` is the single
draw of `flexible_values(p.pulse_duration)` and `gap k` the `k`-th draw of
`flexible_values(p.pulse_gap)`. -/
def pulse_onsets (pulse_secs refresh_hz trial_flips : ℚ) (gap : ℕ → ℚ)
    (fuel : ℕ) : List ℤ :=
  let pulse_flips := refresh_hz * pulse_secs
  (pulseOnsetsLoop pulse_flips trial_flips refresh_hz gap fuel 0 [0]).reverse

/-- Main loop invariant: the loop prepends a block `pre` of onsets, each of
which respects the frame budget and strictly exceeds the previous head; the
strictly-decreasing order of the accumulator is preserved. -/
theorem pulseOnsetsLoop_spec (pulse_flips trial_flips refresh_hz : ℚ)
    (gap : ℕ → ℚ) (hpf : 1 ≤ pulse_flips)
    (hipi : ∀ j, (0 : ℤ) ≤ nround (gap j * refresh_hz)) :
    ∀ (fuel k : ℕ) (acc : List ℤ), acc ≠ [] → 0 ≤ acc.headI →
      acc.Chain' (fun a b => b < a) →
      ∃ pre : List ℤ,
        pulseOnsetsLoop pulse_flips trial_flips refresh_hz gap fuel k acc =
          pre ++ acc ∧
        (pre ++ acc).Chain' (fun a b => b < a) ∧
        ∀ o ∈ pre, (o : ℚ) + pulse_flips ≤ trial_flips ∧ acc.headI < o := by
  intro fuel
  induction fuel with
  | zero =>
    intro k acc hne _ hchain
    exact ⟨[], rfl, by simpa using hchain, by simp⟩
  | succ n ih =>
    intro k acc hne hnn hchain
    rw [pulseOnsetsLoop]
    set last_pulse : ℤ := acc.headI with hlast
    set ipi_flips : ℤ := nround (gap k * refresh_hz) with hipik
    set next_pulse : ℚ := (last_pulse : ℚ) + pulse_flips + (ipi_flips : ℚ)
      with hnext
    by_cases hstop : trial_flips < next_pulse + pulse_flips
    · refine ⟨[], ?_, by simpa using hchain, by simp⟩
      simp [hstop]
    · have hipik0 : (0 : ℤ) ≤ ipi_flips := hipi k
      have hnext_ge : (last_pulse : ℚ) + 1 ≤ next_pulse := by
        rw [hnext]
        have : (0 : ℚ) ≤ (ipi_flips : ℚ) := by exact_mod_cast hipik0
        linarith
      have hnext_nonneg : 0 ≤ next_pulse := by
        have : (0 : ℚ) ≤ (last_pulse : ℚ) := by exact_mod_cast hnn
        linarith
      have htrunc : truncInt next_pulse = ⌊next_pulse⌋ :=
        truncInt_of_nonneg hnext_nonneg
      have hgt : last_pulse < truncInt next_pulse := by
        rw [htrunc]
        have : last_pulse + 1 ≤ ⌊next_pulse⌋ := by
          rw [Int.le_floor]
          exact_mod_cast hnext_ge
        omega
      have hchain' : (truncInt next_pulse :: acc).Chain'
          (fun a b => b < a) := by
        rw [List.chain'_cons']
        refine ⟨?_, hchain⟩
        intro b hb
        have : acc.headI = b := by
          cases acc with
          | nil => simp at hb
          | cons x xs => simp_all [List.head?]
        rw [hlast] at hgt
        omega
      have hrec := ih (k + 1) (truncInt next_pulse :: acc) (by simp)
        (by simp only [List.headI]; omega) hchain'
      obtain ⟨pre, hres, hchain2, hpre⟩ := hrec
      refine ⟨pre ++ [truncInt next_pulse], ?_, ?_, ?_⟩
      · simp only [hstop, if_false]
        rw [hres, List.append_assoc, List.singleton_append]
      · rw [List.append_assoc, List.singleton_append]
        exact hres ▸ hchain2
      · intro o ho
        rcases List.mem_append.mp ho with ho' | ho'
        · obtain ⟨h1, h2⟩ := hpre o ho'
          refine ⟨h1, ?_⟩
          simp only [List.headI] at h2
          omega
        · have : o = truncInt next_pulse := by simpa using ho'
          subst this
          constructor
          · have h1 : (truncInt next_pulse : ℚ) ≤ next_pulse := by
              rw [htrunc]
              exact Int.floor_le next_pulse
            push_neg at hstop
            linarith
          · exact hgt

/-- List form of the pulse-onset schedule: it is `0` followed by the
prepended block reversed. -/
theorem pulse_onsets_eq (pulse_secs refresh_hz trial_flips : ℚ)
    (gap : ℕ → ℚ) (fuel : ℕ)
    (hpf : 1 ≤ refresh_hz * pulse_secs)
    (hipi : ∀ j, (0 : ℤ) ≤ nround (gap j * refresh_hz)) :
    ∃ pre : List ℤ,
      pulse_onsets pulse_secs refresh_hz trial_flips gap fuel =
        0 :: pre.reverse ∧
      (pre ++ [0]).Chain' (fun a b => b < a) ∧
      ∀ o ∈ pre, (o : ℚ) + refresh_hz * pulse_secs ≤ trial_flips ∧ 0 < o := by
  obtain ⟨pre, hres, hchain, hpre⟩ :=
    pulseOnsetsLoop_spec (refresh_hz * pulse_secs) trial_flips refresh_hz gap
      hpf hipi fuel 0 [0] (by simp) (by simp) (by simp)
  refine ⟨pre, ?_, hchain, ?_⟩
  · show (pulseOnsetsLoop (refresh_hz * pulse_secs) trial_flips refresh_hz
        gap fuel 0 [0]).reverse = 0 :: pre.reverse
    rw [hres]
    simp
  · intro o ho
    have := hpre o ho
    simpa using this

/-- C1 (amended): for valid inputs (pulse length at least one flip, nonnegative
gap samples, nonnegative refresh rate) the schedule returned by `pulse_onsets`
is non-empty, starts at onset `0`, is strictly increasing, every onset *after
the first* satisfies `onset + pulse_duration_frames ≤ trial_frame_budget`, and
its length is bounded by `⌊trial_frame_budget⌋ + 1` uniformly in the loop fuel
(the schedule is finite).  The first onset is always `0` and respects the
budget only when the first pulse fits. -/
theorem pulse_onsets_schedule_props (ps rh tf : ℚ) (gap : ℕ → ℚ) (fuel : ℕ)
    (hpf : 1 ≤ rh * ps) (hrh : 0 ≤ rh) (hgap : ∀ j, 0 ≤ gap j) :
    pulse_onsets ps rh tf gap fuel ≠ [] ∧
    (pulse_onsets ps rh tf gap fuel).headI = 0 ∧
    (pulse_onsets ps rh tf gap fuel).Chain' (· < ·) ∧
    (∀ o ∈ (pulse_onsets ps rh tf gap fuel).tail, (o : ℚ) + rh * ps ≤ tf) ∧
    (pulse_onsets ps rh tf gap fuel).length ≤ ⌊tf⌋.toNat + 1 := by
  have hipi : ∀ j, (0 : ℤ) ≤ nround (gap j * rh) := fun j =>
    nround_nonneg (mul_nonneg (hgap j) hrh)
  obtain ⟨pre, heq, hchain, hpre⟩ :=
    pulse_onsets_eq ps rh tf gap fuel hpf hipi
  have hrev : pulse_onsets ps rh tf gap fuel = (pre ++ [0]).reverse := by
    rw [heq]; simp
  refine ⟨by rw [heq]; simp, by rw [heq]; simp, ?_, ?_, ?_⟩
  · rw [hrev]
    rw [List.chain'_reverse]
    exact hchain
  · intro o ho
    rw [heq] at ho
    simp only [List.tail_cons, List.mem_reverse] at ho
    exact (hpre o ho).1
  · by_cases hpre0 : pre = []
    · subst hpre0
      rw [heq]
      simp
    have hmem : ∀ x ∈ pulse_onsets ps rh tf gap fuel,
        x ∈ Finset.Icc (0 : ℤ) ⌊tf⌋ := by
      intro x hx
      rw [heq] at hx
      have htf : (2 : ℚ) ≤ tf := by
        obtain ⟨o, ho⟩ := List.exists_mem_of_ne_nil pre hpre0
        obtain ⟨h1, h2⟩ := hpre o ho
        have : (1 : ℚ) ≤ (o : ℚ) := by exact_mod_cast h2
        linarith
      rcases List.mem_cons.mp hx with rfl | hx'
      · simp only [Finset.mem_Icc]
        refine ⟨le_refl 0, ?_⟩
        have : (0 : ℚ) ≤ tf := by linarith
        exact Int.le_floor.mpr (by exact_mod_cast this)
      · rw [List.mem_reverse] at hx'
        obtain ⟨h1, h2⟩ := hpre x hx'
        simp only [Finset.mem_Icc]
        exact ⟨by omega, Int.le_floor.mpr (by linarith)⟩
    have hnodup : (pulse_onsets ps rh tf gap fuel).Nodup := by
      have hc : (pulse_onsets ps rh tf gap fuel).Chain' (· < ·) := by
        rw [hrev, List.chain'_reverse]; exact hchain
      have hp : (pulse_onsets ps rh tf gap fuel).Pairwise (· < ·) :=
        List.chain'_iff_pairwise.mp hc
      exact hp.imp ne_of_lt
    have hsub : (pulse_onsets ps rh tf gap fuel).toFinset ⊆
        Finset.Icc (0 : ℤ) ⌊tf⌋ := by
      intro x hx
      exact hmem x (List.mem_toFinset.mp hx)
    have hcard := Finset.card_le_card hsub
    rw [List.toFinset_card_of_nodup hnodup] at hcard
    have hicc : (Finset.Icc (0 : ℤ) ⌊tf⌋).card = (⌊tf⌋ + 1).toNat := by
      rw [Int.card_Icc]
      omega
    omega

/-- C1 witness: a concrete run of the scheduler (1-second pulses, zero gaps,
refresh 1 Hz, 5-flip budget) exhibiting every property of the theorem. -/
theorem pulse_onsets_schedule_props_witness :
    pulse_onsets 1 1 5 (fun _ => 0) 10 ≠ [] ∧
    (pulse_onsets 1 1 5 (fun _ => 0) 10).headI = 0 ∧
    (pulse_onsets 1 1 5 (fun _ => 0) 10).Chain' (· < ·) ∧
    (∀ o ∈ (pulse_onsets 1 1 5 (fun _ => 0) 10).tail,
      (o : ℚ) + 1 * 1 ≤ 5) ∧
    (pulse_onsets 1 1 5 (fun _ => 0) 10).length ≤ ⌊(5 : ℚ)⌋.toNat + 1 :=
  pulse_onsets_schedule_props 1 1 5 (fun _ => 0) 10 (by norm_num)
    (by norm_num) (fun _ => le_refl 0)

/-- C1 counterexample: with a 5-second pulse at 1 Hz and a 3-flip budget the
schedule still contains onset `0`, which violates
`onset + pulse_duration_frames ≤ trial_frame_budget`. -/
theorem pulse_onsets_first_pulse_overrun :
    pulse_onsets 5 1 3 (fun _ => 0) 10 = [0] ∧
    ¬ ((0 : ℚ) + 1 * 5 ≤ 3) := by
  constructor
  · norm_num [pulse_onsets, pulseOnsetsLoop, nround, truncInt]
  · norm_num

/-- C2 counterexample: when even the first pulse does not fit
(`pulse_duration_frames = 5 > 3 = trial_frame_budget`) the schedule is `[0]`,
not empty. -/
theorem pulse_onsets_not_empty_when_overrun :
    (3 : ℚ) < 1 * 5 ∧ pulse_onsets 5 1 3 (fun _ => 0) 10 = [0] ∧
    pulse_onsets 5 1 3 (fun _ => 0) 10 ≠ [] := by
  have h : pulse_onsets 5 1 3 (fun _ => 0) 10 = [0] := by
    norm_num [pulse_onsets, pulseOnsetsLoop, nround, truncInt]
  exact ⟨by norm_num, h, by rw [h]; simp⟩

/-- C2 (amended): if even the first pulse does not fit within the trial frame
budget, the schedule returned by `pulse_onsets` is the singleton `[0]` — the
first pulse is scheduled anyway and overruns the budget; the schedule is never
empty. -/
theorem pulse_onsets_degenerate_singleton (ps rh tf : ℚ) (gap : ℕ → ℚ)
    (fuel : ℕ) (hpf : 1 ≤ rh * ps) (hrh : 0 ≤ rh) (hgap : ∀ j, 0 ≤ gap j)
    (hbig : tf < rh * ps) :
    pulse_onsets ps rh tf gap fuel = [0] := by
  cases fuel with
  | zero => simp [pulse_onsets, pulseOnsetsLoop]
  | succ n =>
    have hipi : (0 : ℤ) ≤ nround (gap 0 * rh) :=
      nround_nonneg (mul_nonneg (hgap 0) hrh)
    have hcond : tf <
        ((([0] : List ℤ).headI : ℚ) + rh * ps + (nround (gap 0 * rh) : ℚ)) +
          rh * ps := by
      have h0 : (0 : ℚ) ≤ (nround (gap 0 * rh) : ℚ) := by exact_mod_cast hipi
      simp only [List.headI]
      push_cast
      linarith
    simp only [pulse_onsets, pulseOnsetsLoop, hcond, if_true]
    simp

/-- C2 witness: the concrete degenerate input of the counterexample run
through the amended theorem. -/
theorem pulse_onsets_degenerate_singleton_witness :
    pulse_onsets 5 1 3 (fun _ => 0) 10 = [0] :=
  pulse_onsets_degenerate_singleton 5 1 3 (fun _ => 0) 10 (by norm_num)
    (by norm_num) (fun _ => le_refl 0) (by norm_num)

/-!
### `contrast_schedule` (src/pulses.py)

For each onset the Python code rejection-samples `rs.normal(mean, sd)` until
the draw lies inside `[limits[0], limits[1]]`, then assigns the drawn value to
`contrast_vector[onset:offset]` with `offset = onset + pulse_flips` and appends
it to `contrast_values`.  The normal draws are modelled as the stream `draws`
(`mean`/`sd` only parameterize the distribution the stream was sampled from);
the rejection loop carries `fuel`; the vector is modelled as a total function
`ℤ → ℚ`, zero-initialized (`np.zeros(trial_flips)`), with the fractional slice
endpoint truncated by `int()` as numpy does.
-/

/-- The `while True` rejection loop: first draw inside the limits, together
with the next unused stream index. -/
def drawUntil (low high : ℚ) (draws : ℕ → ℚ) : ℕ → ℕ → Option (ℚ × ℕ)
  | 0, _ => none
  | fuel + 1, k =>
    let v := draws k
    if low ≤ v ∧ v ≤ high then some (v, k + 1)
    else drawUntil low high draws fuel (k + 1)

/-- The `for onset in onsets` loop of `contrast_schedule`; `vals` accumulates
`contrast_values` in reverse. -/
def contrastScheduleGo (low high pulse_flips : ℚ) (draws : ℕ → ℚ)
    (fuel : ℕ) :
    List ℤ → ℕ → (ℤ → ℚ) → List ℚ → Option ((ℤ → ℚ) × List ℚ)
  | [], _, vec, vals => some (vec, vals.reverse)
  | onset :: rest, k, vec, vals =>
    match drawUntil low high draws fuel k with
    | none => none
    | some (v, k2) =>
      let offset := truncInt ((onset : ℚ) + pulse_flips)
      let vec2 : ℤ → ℚ := fun j => if onset ≤ j ∧ j < offset then v else vec j
      contrastScheduleGo low high pulse_flips draws fuel rest k2 vec2
        (v :: vals)

/-- Embedding of `contrast_schedule(onsets, mean, sd, limits, trial_flips,
pulse_flips)`:
returns the per-flip contrast vector and the per-pulse contrast values, or
`none` if a rejection loop exhausts its fuel. -/
def contrast_schedule (onsets : List ℤ) (low high pulse_flips : ℚ)
    (draws : ℕ → ℚ) (fuel : ℕ) : Option ((ℤ → ℚ) × List ℚ) :=
  contrastScheduleGo low high pulse_flips draws fuel onsets 0 (fun _ => 0) []

theorem drawUntil_mem (low high : ℚ) (draws : ℕ → ℚ) :
    ∀ (fuel k : ℕ) (v : ℚ) (k2 : ℕ),
      drawUntil low high draws fuel k = some (v, k2) →
      low ≤ v ∧ v ≤ high := by
  intro fuel
  induction fuel with
  | zero => intro k v k2 h; simp [drawUntil] at h
  | succ n ih =>
    intro k v k2 h
    rw [drawUntil] at h
    by_cases hc : low ≤ draws k ∧ draws k ≤ high
    · rw [if_pos hc] at h
      obtain ⟨hv, -⟩ : draws k = v ∧ k + 1 = k2 := by simpa using h
      exact hv ▸ hc
    · rw [if_neg hc] at h
      exact ih (k + 1) v k2 h

theorem contrastScheduleGo_vals (low high pulse_flips : ℚ) (draws : ℕ → ℚ)
    (fuel : ℕ) :
    ∀ (onsets : List ℤ) (k : ℕ) (vec : ℤ → ℚ) (vals : List ℚ)
      (r : (ℤ → ℚ) × List ℚ),
      (∀ v ∈ vals, low ≤ v ∧ v ≤ high) →
      contrastScheduleGo low high pulse_flips draws fuel onsets k vec vals =
        some r →
      ∀ v ∈ r.2, low ≤ v ∧ v ≤ high := by
  intro onsets
  induction onsets with
  | nil =>
    intro k vec vals r hvals h
    rw [contrastScheduleGo] at h
    obtain rfl : (vec, vals.reverse) = r := by simpa using h
    intro v hv
    exact hvals v (List.mem_reverse.mp hv)
  | cons onset rest ih =>
    intro k vec vals r hvals h
    rw [contrastScheduleGo] at h
    cases hd : drawUntil low high draws fuel k with
    | none => rw [hd] at h; simp at h
    | some p =>
      obtain ⟨v0, k2⟩ := p
      rw [hd] at h
      simp only at h
      refine ih k2 _ (v0 :: vals) r ?_ h
      intro v hv
      rcases List.mem_cons.mp hv with rfl | hv'
      · exact drawUntil_mem low high draws fuel k v k2 hd
      · exact hvals v hv'

/-- C7: every per-pulse contrast value emitted by `contrast_schedule` lies
within the configured `[low, high]` limits. -/
theorem contrast_schedule_values_within_limits (onsets : List ℤ)
    (low high pulse_flips : ℚ) (draws : ℕ → ℚ) (fuel : ℕ)
    (r : (ℤ → ℚ) × List ℚ)
    (h : contrast_schedule onsets low high pulse_flips draws fuel = some r) :
    ∀ v ∈ r.2, low ≤ v ∧ v ≤ high :=
  contrastScheduleGo_vals low high pulse_flips draws fuel onsets 0
    (fun _ => 0) [] r (by simp) h

/-- Explicit value of the contrast vector for the concrete witness input
(onsets `0` and `4`, two-flip pulses, every normal draw equal to `1/5`). -/
def csWitnessVec : ℤ → ℚ := fun j =>
  if (4 : ℤ) ≤ j ∧ j < 6 then 1 / 5
  else if (0 : ℤ) ≤ j ∧ j < 2 then 1 / 5 else 0

theorem csWitnessEq :
    contrast_schedule [0, 4] (1 / 10) (3 / 10) 2 (fun _ => 1 / 5) 3 =
      some (csWitnessVec, [1 / 5, 1 / 5]) := by
  have h0 : truncInt (((0 : ℤ) : ℚ) + (2 : ℚ)) = 2 := by norm_num [truncInt]
  have h4 : truncInt (((4 : ℤ) : ℚ) + (2 : ℚ)) = 6 := by norm_num [truncInt]
  have hdraw : (1 : ℚ) / 10 ≤ 1 / 5 ∧ (1 : ℚ) / 5 ≤ 3 / 10 := by norm_num
  simp only [contrast_schedule, contrastScheduleGo, drawUntil, if_pos hdraw,
    h0, h4]
  rfl

/-- C7 witness: the value `1/5` drawn on the witness input is certified to lie
inside the limits `[1/10, 3/10]`. -/
theorem contrast_schedule_values_within_limits_witness :
    (1 : ℚ) / 10 ≤ 1 / 5 ∧ (1 : ℚ) / 5 ≤ 3 / 10 :=
  contrast_schedule_values_within_limits [0, 4] (1 / 10) (3 / 10) 2
    (fun _ => 1 / 5) 3 (csWitnessVec, [1 / 5, 1 / 5]) csWitnessEq (1 / 5)
    (by simp)

theorem truncInt_le_ceil (q : ℚ) : truncInt q ≤ ⌈q⌉ := by
  unfold truncInt
  split
  · exact Int.floor_le_ceil q
  · rw [Int.floor_neg]
    omega

theorem contrastScheduleGo_vec (low high pulse_flips : ℚ) (draws : ℕ → ℚ)
    (fuel : ℕ) (j : ℤ) :
    ∀ (onsets : List ℤ) (k : ℕ) (vec : ℤ → ℚ) (vals : List ℚ)
      (r : (ℤ → ℚ) × List ℚ),
      contrastScheduleGo low high pulse_flips draws fuel onsets k vec vals =
        some r →
      (∀ onset ∈ onsets,
        ¬((onset : ℚ) ≤ (j : ℚ) ∧ (j : ℚ) < (onset : ℚ) + pulse_flips)) →
      r.1 j = vec j := by
  intro onsets
  induction onsets with
  | nil =>
    intro k vec vals r h _
    rw [contrastScheduleGo] at h
    obtain rfl : (vec, vals.reverse) = r := by simpa using h
    rfl
  | cons onset rest ih =>
    intro k vec vals r h hout
    rw [contrastScheduleGo] at h
    cases hd : drawUntil low high draws fuel k with
    | none => rw [hd] at h; simp at h
    | some p =>
      obtain ⟨v0, k2⟩ := p
      rw [hd] at h
      simp only at h
      have hrec := ih k2 _ (v0 :: vals) r h
        (fun o ho => hout o (List.mem_cons_of_mem _ ho))
      rw [hrec]
      have hcond : ¬(onset ≤ j ∧ j < truncInt ((onset : ℚ) + pulse_flips)) := by
        rintro ⟨h1, h2⟩
        refine hout onset (List.mem_cons_self _ _) ⟨by exact_mod_cast h1, ?_⟩
        have hle : truncInt ((onset : ℚ) + pulse_flips) ≤
            ⌈(onset : ℚ) + pulse_flips⌉ := truncInt_le_ceil _
        have hlt : (⌈(onset : ℚ) + pulse_flips⌉ : ℚ) <
            (onset : ℚ) + pulse_flips + 1 := Int.ceil_lt_add_one _
        have hj : j + 1 ≤ ⌈(onset : ℚ) + pulse_flips⌉ := by omega
        have : ((j : ℚ) + 1) ≤ (⌈(onset : ℚ) + pulse_flips⌉ : ℚ) := by
          exact_mod_cast hj
        linarith
      simp [hcond]

/-- C8: the per-frame contrast vector returned by `contrast_schedule` is zero
at every frame index outside the union of the pulse windows
`[onset, onset + pulse_flips)`. -/
theorem contrast_schedule_zero_outside_pulses (onsets : List ℤ)
    (low high pulse_flips : ℚ) (draws : ℕ → ℚ) (fuel : ℕ)
    (r : (ℤ → ℚ) × List ℚ)
    (h : contrast_schedule onsets low high pulse_flips draws fuel = some r)
    (j : ℤ)
    (hout : ∀ onset ∈ onsets,
      ¬((onset : ℚ) ≤ (j : ℚ) ∧ (j : ℚ) < (onset : ℚ) + pulse_flips)) :
    r.1 j = 0 :=
  contrastScheduleGo_vec low high pulse_flips draws fuel j onsets 0
    (fun _ => 0) [] r h hout

/-- C8 witness: on the concrete witness schedule, frame `3` lies between the
two pulse windows `[0, 2)` and `[4, 6)` and its contrast is zero. -/
theorem contrast_schedule_zero_outside_pulses_witness :
    csWitnessVec 3 = 0 :=
  contrast_schedule_zero_outside_pulses [0, 4] (1 / 10) (3 / 10) 2
    (fun _ => 1 / 5) 3 (csWitnessVec, [1 / 5, 1 / 5]) csWitnessEq 3
    (by intro onset ho; fin_cases ho <;> norm_num)

/-!
### `generate_contrast_pair` (src/pulses.py)

Each iteration of the `while need_contrasts` loop samples a pedestal
(`np.round(flexible_values(p.contrast_pedestal), 2)`), a delta direction
(`rs.choice([-1, 1])`), a delta (`flexible_values(p.contrast_deltas)`),
computes `variable = pedestal + delta_dir * delta`, randomly assigns the two
values to sides (`rs.randint(2)`), and accepts the pair iff
`min ≥ limits[0]` and `max ≤ limits[1]`.  All four draws are re-made on every
iteration.  Streams: `ped`, `del`, `dir` (`true ↦ +1`), `side`
(`true ↦ (pedestal, variable)`).
-/

/-- Model of `np.round(q, 2)`: round to two decimals, ties to even. -/
def round2 (q : ℚ) : ℚ := (nround (q * 100) : ℚ) / 100

/-- The `while need_contrasts` loop of `generate_contrast_pair`; `varc` is
the Python local `variable`. -/
def generateContrastPairLoop (low high : ℚ) (ped delt : ℕ → ℚ)
    (dir side : ℕ → Bool) : ℕ → ℕ → Option (ℚ × ℚ)
  | 0, _ => none
  | fuel + 1, k =>
    let pedestal := round2 (ped k)
    let varc := pedestal + (if dir k then 1 else -1) * delt k
    let contrasts := if side k then (pedestal, varc) else (varc, pedestal)
    if low ≤ min contrasts.1 contrasts.2 ∧ max contrasts.1 contrasts.2 ≤ high
    then some contrasts
    else generateContrastPairLoop low high ped delt dir side fuel (k + 1)

/-- Embedding of `generate_contrast_pair(p)` with limits `[low, high]`. -/
def generate_contrast_pair (low high : ℚ) (ped delt : ℕ → ℚ)
    (dir side : ℕ → Bool) (fuel : ℕ) : Option (ℚ × ℚ) :=
  generateContrastPairLoop low high ped delt dir side fuel 0

theorem generate_contrast_pair_concrete :
    generate_contrast_pair (1 / 10) (3 / 10) (fun _ => 1 / 5)
        (fun _ => 2 / 25) (fun _ => true) (fun _ => true) 1 =
      some (1 / 5, 7 / 25) := by
  have hped : round2 ((1 : ℚ) / 5) = 1 / 5 := by norm_num [round2, nround]
  simp only [generate_contrast_pair, generateContrastPairLoop, hped, if_true]
  norm_num

/-- C3 counterexample: with pedestal draw `0.2` and delta draw `0.08` the
returned pair is `(0.2, 0.28)` — one side *is* the pedestal and the other is
displaced by the *full* delta — which is not the half-delta pair
`{0.16, 0.24}` the claim describes. -/
theorem generate_contrast_pair_not_half_delta :
    generate_contrast_pair (1 / 10) (3 / 10) (fun _ => 1 / 5)
        (fun _ => 2 / 25) (fun _ => true) (fun _ => true) 1 =
      some (1 / 5, 7 / 25) ∧
    ¬(((1 : ℚ) / 5 = 1 / 5 - 1 / 25 ∧ (7 : ℚ) / 25 = 1 / 5 + 1 / 25) ∨
      ((1 : ℚ) / 5 = 1 / 5 + 1 / 25 ∧ (7 : ℚ) / 25 = 1 / 5 - 1 / 25)) :=
  ⟨generate_contrast_pair_concrete, by norm_num⟩

/-- C3 (amended): the loop samples a pedestal (rounded to two decimals), a
signed full delta and a side assignment afresh on every iteration, returns a
pair in which one side equals the pedestal and the other the pedestal
displaced by the full signed delta, and only accepts pairs with both values
inside the configured limits. -/
theorem generate_contrast_pair_props (low high : ℚ) (ped delt : ℕ → ℚ)
    (dir side : ℕ → Bool) (fuel : ℕ) (c : ℚ × ℚ)
    (h : generate_contrast_pair low high ped delt dir side fuel = some c) :
    (low ≤ c.1 ∧ c.1 ≤ high ∧ low ≤ c.2 ∧ c.2 ≤ high) ∧
    ∃ k, c = (round2 (ped k),
              round2 (ped k) + (if dir k then 1 else -1) * delt k) ∨
         c = (round2 (ped k) + (if dir k then 1 else -1) * delt k,
              round2 (ped k)) := by
  unfold generate_contrast_pair at h
  suffices H : ∀ (fuel k : ℕ) (c : ℚ × ℚ),
      generateContrastPairLoop low high ped delt dir side fuel k = some c →
      (low ≤ c.1 ∧ c.1 ≤ high ∧ low ≤ c.2 ∧ c.2 ≤ high) ∧
      ∃ m, c = (round2 (ped m),
                round2 (ped m) + (if dir m then 1 else -1) * delt m) ∨
           c = (round2 (ped m) + (if dir m then 1 else -1) * delt m,
                round2 (ped m)) by
    exact H fuel 0 c h
  intro fuel
  induction fuel with
  | zero => intro k c h; simp [generateContrastPairLoop] at h
  | succ n ih =>
    intro k c h
    simp only [generateContrastPairLoop] at h
    split at h <;> split at h <;> split at h <;>
      first
        | exact ih (k + 1) c h
        | (obtain rfl := Option.some.inj h
           rename_i hs hd hc
           refine ⟨⟨le_trans hc.1 (min_le_left _ _),
                   le_trans (le_max_left _ _) hc.2,
                   le_trans hc.1 (min_le_right _ _),
                   le_trans (le_max_right _ _) hc.2⟩, k, ?_⟩
           simp [hs, hd])

/-- C3 witness: the amended theorem instantiated on the concrete run of the
counterexample (`pedestal = 0.2`, `delta = 0.08`, pair `(0.2, 0.28)`). -/
theorem generate_contrast_pair_props_witness :
    ((1 : ℚ) / 10 ≤ ((1 / 5, 7 / 25) : ℚ × ℚ).1 ∧
      ((1 / 5, 7 / 25) : ℚ × ℚ).1 ≤ 3 / 10 ∧
      (1 : ℚ) / 10 ≤ ((1 / 5, 7 / 25) : ℚ × ℚ).2 ∧
      ((1 / 5, 7 / 25) : ℚ × ℚ).2 ≤ 3 / 10) ∧
    ∃ k, ((1 / 5, 7 / 25) : ℚ × ℚ) =
           (round2 ((1 : ℚ) / 5),
            round2 ((1 : ℚ) / 5) +
              (if (fun _ : ℕ => true) k then 1 else -1) * ((2 : ℚ) / 25)) ∨
         ((1 / 5, 7 / 25) : ℚ × ℚ) =
           (round2 ((1 : ℚ) / 5) +
              (if (fun _ : ℕ => true) k then 1 else -1) * ((2 : ℚ) / 25),
            round2 ((1 : ℚ) / 5)) :=
  generate_contrast_pair_props (1 / 10) (3 / 10) (fun _ => 1 / 5)
    (fun _ => 2 / 25) (fun _ => true) (fun _ => true) 1 (1 / 5, 7 / 25)
    generate_contrast_pair_concrete

/-!
### `EventEngine.collect_response` (src/pulses.py)

`event.waitKeys(resp_dur, break_keys, resp_clock)` either times out (`None`,
modelled `none`) or returns a list of `(key, timestamp)` pairs.  The code
initializes `correct = False`, `used_key = response = rt = NaN`, then iterates
over *all* returned pairs: a quit key calls `core.quit()` (modelled
`Except.error ()`); each response key overwrites `used_key`, `rt`, `response`
(the key's index in `resp_keys`) and `correct` — so the last matching pair in
the batch determines the result.
-/

/-- Result record of `collect_response`; `NaN` fields are `none`. -/
structure RespResult where
  key : Option String
  response : Option ℕ
  gen_correct : Bool
  rt : Option ℚ
deriving DecidableEq

/-- The record written for a response key press `(key, t)`. -/
def respRecord (resp_keys : List String) (correct_response : ℕ)
    (key : String) (t : ℚ) : RespResult :=
  { key := some key,
    response := some (resp_keys.indexOf key),
    gen_correct := decide (resp_keys.indexOf key = correct_response),
    rt := some t }

/-- The `for key, timestamp in keys` loop of `collect_response`. -/
def processKeys (resp_keys quit_keys : List String) (correct_response : ℕ) :
    List (String × ℚ) → RespResult → Except Unit RespResult
  | [], acc => .ok acc
  | (key, timestamp) :: rest, acc =>
    if key ∈ quit_keys then .error ()
    else if key ∈ resp_keys then
      processKeys resp_keys quit_keys correct_response rest
        (respRecord resp_keys correct_response key timestamp)
    else processKeys resp_keys quit_keys correct_response rest acc

/-- Embedding of `EventEngine.collect_response(correct_response)`;
`keys = none` models a
`waitKeys` timeout. -/
def collect_response (resp_keys quit_keys : List String)
    (correct_response : ℕ) (keys : Option (List (String × ℚ))) :
    Except Unit RespResult :=
  processKeys resp_keys quit_keys correct_response (keys.getD [])
    ⟨none, none, false, none⟩

/-- The fold step equivalent to one iteration of the key loop (no quit). -/
def respStep (resp_keys : List String) (correct_response : ℕ)
    (acc : RespResult) (p : String × ℚ) : RespResult :=
  if p.1 ∈ resp_keys then respRecord resp_keys correct_response p.1 p.2
  else acc

theorem processKeys_eq_foldl (resp_keys quit_keys : List String)
    (correct_response : ℕ) :
    ∀ (ks : List (String × ℚ)) (acc : RespResult),
      (∀ p ∈ ks, p.1 ∉ quit_keys) →
      processKeys resp_keys quit_keys correct_response ks acc =
        .ok (ks.foldl (respStep resp_keys correct_response) acc) := by
  intro ks
  induction ks with
  | nil => intro acc _; rfl
  | cons p rest ih =>
    intro acc hq
    obtain ⟨key, timestamp⟩ := p
    have hk : key ∉ quit_keys := hq (key, timestamp) (List.mem_cons_self _ _)
    rw [processKeys, if_neg hk]
    by_cases hr : key ∈ resp_keys
    · rw [if_pos hr,
        ih _ (fun p hp => hq p (List.mem_cons_of_mem _ hp))]
      simp [respStep, hr]
    · rw [if_neg hr,
        ih _ (fun p hp => hq p (List.mem_cons_of_mem _ hp))]
      simp [respStep, hr]

theorem foldl_respStep_spec (resp_keys : List String)
    (correct_response : ℕ) (ks : List (String × ℚ)) :
    ∀ acc : RespResult,
      ks.foldl (respStep resp_keys correct_response) acc =
        match (ks.filter (fun p => decide (p.1 ∈ resp_keys))).getLast? with
        | none => acc
        | some (key, t) => respRecord resp_keys correct_response key t := by
  induction ks using List.reverseRecOn with
  | nil => intro acc; rfl
  | append_singleton rest p ih =>
    intro acc
    obtain ⟨key, t⟩ := p
    by_cases hr : key ∈ resp_keys
    · have hfilter : List.filter (fun p => decide (p.1 ∈ resp_keys))
          [(key, t)] = [(key, t)] := by simp [hr]
      rw [List.foldl_append, List.filter_append, hfilter,
        List.getLast?_concat]
      simp [respStep, hr]
    · have hfilter : List.filter (fun p => decide (p.1 ∈ resp_keys))
          [(key, t)] = [] := by simp [hr]
      rw [List.foldl_append, List.filter_append, hfilter, List.append_nil]
      simp only [List.foldl_cons, List.foldl_nil]
      rw [show respStep resp_keys correct_response
            (List.foldl (respStep resp_keys correct_response) acc rest)
            (key, t) =
          List.foldl (respStep resp_keys correct_response) acc rest
        from by simp [respStep, hr]]
      exact ih acc

/-- C4 (amended): with no quit key in the polled batch, `collect_response`
returns the *last* pair in the batch whose key is a configured response key:
`response` is that key's index, `rt` its timestamp, and `gen_correct` holds
iff the index equals the rewarded response; if the batch contains no response
key, or `waitKeys` timed out (`keys = none`), the result keeps `response`
missing and `gen_correct` false. -/
theorem collect_response_spec (resp_keys quit_keys : List String)
    (correct_response : ℕ) (ks : List (String × ℚ))
    (hq : ∀ p ∈ ks, p.1 ∉ quit_keys) :
    collect_response resp_keys quit_keys correct_response (some ks) =
      .ok (match (ks.filter (fun p => decide (p.1 ∈ resp_keys))).getLast? with
        | none => ⟨none, none, false, none⟩
        | some (key, t) => respRecord resp_keys correct_response key t) ∧
    collect_response resp_keys quit_keys correct_response none =
      .ok ⟨none, none, false, none⟩ := by
  constructor
  · show processKeys resp_keys quit_keys correct_response ks _ = _
    rw [processKeys_eq_foldl resp_keys quit_keys correct_response ks _ hq,
      foldl_respStep_spec]
  · rfl

/-- C4 witness: a single `rshift` press at `t = 3` with rewarded response `1`
resolves to response index `1`, `rt = 3`, `gen_correct = true`; a timeout
leaves the response missing. -/
theorem collect_response_spec_witness :
    collect_response ["lshift", "rshift"] ["escape", "q"] 1
        (some [("rshift", 3)]) =
      .ok ⟨some "rshift", some 1, true, some 3⟩ ∧
    collect_response ["lshift", "rshift"] ["escape", "q"] 1 none =
      .ok ⟨none, none, false, none⟩ := by
  have h := collect_response_spec ["lshift", "rshift"] ["escape", "q"] 1
    [("rshift", 3)] (by decide)
  obtain ⟨h1, h2⟩ := h
  refine ⟨?_, h2⟩
  rw [h1]
  rfl

/-- C4 counterexample: a batch holding `lshift` at `t = 1` then `rshift` at
`t = 2` resolves to `rshift` (index 1, `rt = 2`, incorrect for rewarded
response 0) — the *last* matching key wins, not the first (`lshift`, index 0,
`t = 1`). -/
theorem collect_response_last_not_first :
    collect_response ["lshift", "rshift"] ["escape", "q"] 0
        (some [("lshift", 1), ("rshift", 2)]) =
      .ok ⟨some "rshift", some 1, false, some 2⟩ ∧
    (["lshift", "rshift"] : List String).indexOf "lshift" = 0 ∧
    ¬((1 : ℕ) = 0 ∧ (2 : ℚ) = 1) := by
  refine ⟨?_, by decide, by norm_num⟩
  rfl

/-!
### `make_pulse_train` (src/experiment.py), `pulse_design_target = "duration"`

The code draws 20 gap and 20 pulse durations, computes
`count = 1 + np.argmax((gap_dur + pulse_dur).cumsum() > train_dur)` and
truncates both arrays to `count`.  `np.argmax` on a boolean vector returns the
index of the first `True`, and `0` when every entry is `False`.
-/

/-- Model of `np.argmax` on a boolean vector: first index of `true`, else
`0`. -/
def npArgmax (l : List Bool) : ℕ :=
  if true ∈ l then l.indexOf true else 0

/-- Running cumulative sums (`ndarray.cumsum`) starting from `s`. -/
def cumsum : List ℚ → ℚ → List ℚ
  | [], _ => []
  | x :: xs, s => (s + x) :: cumsum xs (s + x)

/-- The `"duration"` branch of `make_pulse_train`: 20 over-provisioned
`(gap, pulse)` draws truncated at the first cumulative sum exceeding the
sampled train duration; returns `(gap_dur, pulse_dur, count)`. -/
def make_pulse_train_duration (gap pulse : ℕ → ℚ) (train_dur : ℚ) :
    List ℚ × List ℚ × ℕ :=
  let n_gen := 20
  let gap_dur := (List.range n_gen).map gap
  let pulse_dur := (List.range n_gen).map pulse
  let sums := cumsum (List.zipWith (· + ·) gap_dur pulse_dur) 0
  let count := 1 + npArgmax (sums.map (fun s => decide (train_dur < s)))
  (gap_dur.take count, pulse_dur.take count, count)

/-- C10: if no cumulative `(gap + pulse)` sum of the 20 over-provisioned
pairs exceeds the sampled train duration, the train is truncated to exactly
one pulse: the count is `1` and only the first gap/pulse pair is kept. -/
theorem make_pulse_train_duration_one_pulse (gap pulse : ℕ → ℚ)
    (train_dur : ℚ)
    (h : ∀ s ∈ cumsum (List.zipWith (· + ·) ((List.range 20).map gap)
        ((List.range 20).map pulse)) 0, s ≤ train_dur) :
    make_pulse_train_duration gap pulse train_dur =
      ([gap 0], [pulse 0], 1) := by
  have hfalse : (cumsum (List.zipWith (· + ·) ((List.range 20).map gap)
      ((List.range 20).map pulse)) 0).map
      (fun s => decide (train_dur < s)) =
      (cumsum (List.zipWith (· + ·) ((List.range 20).map gap)
      ((List.range 20).map pulse)) 0).map (fun _ => false) := by
    apply List.map_congr_left
    intro s hs
    simpa using not_lt.mpr (h s hs)
  have hnotmem : true ∉ (cumsum (List.zipWith (· + ·)
      ((List.range 20).map gap) ((List.range 20).map pulse)) 0).map
      (fun s => decide (train_dur < s)) := by
    rw [hfalse]
    simp
  unfold make_pulse_train_duration
  simp only [npArgmax, hnotmem, if_neg, not_false_iff]
  norm_num
  constructor
  · show (List.map gap (List.range 20)).take 1 = [gap 0]
    rw [List.range_succ_eq_map]
    simp
  · show (List.map pulse (List.range 20)).take 1 = [pulse 0]
    rw [List.range_succ_eq_map]
    simp

/-- C10 witness: zero-length gaps and pulses with a positive target duration
never exceed it, so the returned train is the single first pair. -/
theorem make_pulse_train_duration_one_pulse_witness :
    make_pulse_train_duration (fun _ => 0) (fun _ => 0) 1 =
      ([(0 : ℚ)], [(0 : ℚ)], 1) :=
  make_pulse_train_duration_one_pulse (fun _ => 0) (fun _ => 0) 1 (by
    intro s hs
    norm_num [cumsum, List.range_succ] at hs
    rw [hs]
    norm_num)

/-!
### Zero-delta rewarded response (src/experiment.py `generate_trials`,
src/pulses.py `EventEngine.__call__`)

Both sites compute the rewarded/correct response as
`np.random.choice([0, 1]) if delta == 0 else int(delta > 0)`.  The
`np.random.choice` draw comes from the process-global numpy RNG, while the
per-pulse contrast values are drawn from separately constructed
`RandomState` objects (`contrast_schedule` builds a fresh OS-seeded
`RandomState` when `rs=None`).  The two sources are therefore modelled as
distinct streams: `arb` is the global tie-break draw (`false ↦ 0`,
`true ↦ 1`); the contrast stream feeds only the schedule.
-/

/-- Embedding of `rewarded_resp = np.random.choice([0, 1]) if delta == 0 else
int(delta > 0)`. -/
def rewarded_response (delta : ℚ) (arb : Bool) : ℕ :=
  if delta = 0 then (if arb then 1 else 0) else (if 0 < delta then 1 else 0)

/-- The stimulus-relevant outputs of one trial: the contrast schedule drawn
from the contrast stream, paired with the rewarded response computed from the
generative delta and the tie-break stream. -/
def trial_stimulus (onsets : List ℤ) (low high pulse_flips : ℚ)
    (contrast_draws : ℕ → ℚ) (fuel : ℕ) (delta : ℚ) (arb : Bool) :
    Option ((ℤ → ℚ) × List ℚ) × ℕ :=
  (contrast_schedule onsets low high pulse_flips contrast_draws fuel,
   rewarded_response delta arb)

/-- C5: the rewarded response of a trial is unchanged under any change of the
contrast-sampling stream; at zero delta it equals the tie-break draw (`0` or
`1`), and at nonzero delta it is deterministically `int(delta > 0)`,
independent of the tie-break stream. -/
theorem rewarded_response_independent (onsets : List ℤ)
    (low high pulse_flips : ℚ) (cs cs2 : ℕ → ℚ) (fuel : ℕ) (delta : ℚ)
    (arb arb2 : Bool) :
    ((trial_stimulus onsets low high pulse_flips cs fuel delta arb).2 =
      (trial_stimulus onsets low high pulse_flips cs2 fuel delta arb).2) ∧
    (delta = 0 →
      (trial_stimulus onsets low high pulse_flips cs fuel delta arb).2 =
        if arb then 1 else 0) ∧
    (delta ≠ 0 →
      (trial_stimulus onsets low high pulse_flips cs fuel delta arb).2 =
        (trial_stimulus onsets low high pulse_flips cs fuel delta arb2).2 ∧
      (trial_stimulus onsets low high pulse_flips cs fuel delta arb).2 =
        if 0 < delta then 1 else 0) := by
  refine ⟨rfl, ?_, ?_⟩
  · intro h0
    simp [trial_stimulus, rewarded_response, h0]
  · intro hne
    simp [trial_stimulus, rewarded_response, hne]

/-- C5 witness: at `delta = 0` the rewarded response ignores the contrast
stream (here `const 0` versus `const 5`) and equals the tie-break draw `1`;
at `delta = 1` it is `1` for either tie-break draw. -/
theorem rewarded_response_independent_witness :
    ((trial_stimulus [0] 0 1 1 (fun _ => 0) 1 0 true).2 =
      (trial_stimulus [0] 0 1 1 (fun _ => 5) 1 0 true).2) ∧
    ((trial_stimulus [0] 0 1 1 (fun _ => 0) 1 0 true).2 =
      if true then 1 else 0) ∧
    ((trial_stimulus [0] 0 1 1 (fun _ => 0) 1 1 true).2 =
      (trial_stimulus [0] 0 1 1 (fun _ => 0) 1 1 false).2) :=
  ⟨(rewarded_response_independent [0] 0 1 1 (fun _ => 0) (fun _ => 5) 1 0
      true false).1,
   (rewarded_response_independent [0] 0 1 1 (fun _ => 0) (fun _ => 5) 1 0
      true false).2.1 rfl,
   ((rewarded_response_independent [0] 0 1 1 (fun _ => 0) (fun _ => 0) 1 1
      true false).2.2 one_ne_zero).1⟩

/-!
### `TrialEngine.__call__` and `experiment_loop` (src/experiment.py)

The trial body runs its phases in a fixed order with early `return`s:
a quit key during the ITI `wait_check_quit` kills the whole run
(`core.quit()`); `wait_for_ready` returning `None` aborts the trial with the
`nofix` sound; every later phase up to the post-stimulus wait checks
`tracker.check_fixation` each frame and aborts the whole trial with the
`fixbreak` sound, skipping response collection and feedback.  Each per-phase
frame loop is collapsed to a single boolean — `true` iff fixation was
maintained on every frame of that phase; the recenter check only runs when
`p.eye_fix_recenter` is set.
-/

inductive Phase
  | iti | ready | preTarg | recenter | postTarg | crit | pulseTrain
  | postStim | response | feedback | endReset
deriving DecidableEq, Fintype

inductive TrialOutcome
  | quit
  | noFix
  | fixBreak (p : Phase)
  | completed
deriving DecidableEq

/-- Per-trial inputs: the quit signal, the `wait_for_ready` outcome, the
recenter configuration flag, and one fixation-check boolean per checked
phase. -/
structure TrialInput where
  quitSignal : Bool
  fixAcquired : Bool
  recenter : Bool
  fixPreTarg : Bool
  fixRecenter : Bool
  fixPostTarg : Bool
  fixCrit : Bool
  fixPulse : Bool
  fixPostStim : Bool

/-- Embedding of `TrialEngine.__call__(t_info, p_info)`: the outcome plus the
list of phases that started executing, in order. -/
def runTrial (t : TrialInput) : TrialOutcome × List Phase :=
  if t.quitSignal then (.quit, [.iti])
  else if !t.fixAcquired then (.noFix, [.iti, .ready])
  else if !t.fixPreTarg then
    (.fixBreak .preTarg, [.iti, .ready, .preTarg])
  else if t.recenter && !t.fixRecenter then
    (.fixBreak .recenter, [.iti, .ready, .preTarg, .recenter])
  else if !t.fixPostTarg then
    (.fixBreak .postTarg,
     [.iti, .ready, .preTarg, .recenter, .postTarg])
  else if !t.fixCrit then
    (.fixBreak .crit,
     [.iti, .ready, .preTarg, .recenter, .postTarg, .crit])
  else if !t.fixPulse then
    (.fixBreak .pulseTrain,
     [.iti, .ready, .preTarg, .recenter, .postTarg, .crit, .pulseTrain])
  else if !t.fixPostStim then
    (.fixBreak .postStim,
     [.iti, .ready, .preTarg, .recenter, .postTarg, .crit, .pulseTrain,
      .postStim])
  else
    (.completed,
     [.iti, .ready, .preTarg, .recenter, .postTarg, .crit, .pulseTrain,
      .postStim, .response, .feedback, .endReset])

/-- Embedding of `experiment_loop`: trials run in sequence; `core.quit()` ends the run,
every other outcome lets the loop continue with the next trial. -/
def experimentLoop : List TrialInput → List TrialOutcome
  | [] => []
  | t :: ts =>
    let out := (runTrial t).1
    if out = .quit then [out] else out :: experimentLoop ts

/-- The first phase whose fixation check fails, in the order the phases are
executed (`none` when every check passes). -/
def firstFailingPhase (t : TrialInput) : Option Phase :=
  if !t.fixPreTarg then some .preTarg
  else if t.recenter && !t.fixRecenter then some .recenter
  else if !t.fixPostTarg then some .postTarg
  else if !t.fixCrit then some .crit
  else if !t.fixPulse then some .pulseTrain
  else if !t.fixPostStim then some .postStim
  else none

/-- Position of each phase in the execution order. -/
def phaseIdx : Phase → ℕ
  | .iti => 0
  | .ready => 1
  | .preTarg => 2
  | .recenter => 3
  | .postTarg => 4
  | .crit => 5
  | .pulseTrain => 6
  | .postStim => 7
  | .response => 8
  | .feedback => 9
  | .endReset => 10

/-- C6: with no quit signal and fixation acquired, the first failed fixation
check aborts the trial at that phase: the outcome is a distinguishable
fixation-break value naming the phase, no later phase (in particular neither
response collection nor feedback) executes, and the surrounding run loop
continues with the remaining trials instead of halting. -/
theorem fixation_break_aborts_trial (t : TrialInput) (ts : List TrialInput)
    (p : Phase) (hq : t.quitSignal = false) (ha : t.fixAcquired = true)
    (hp : firstFailingPhase t = some p) :
    (runTrial t).1 = .fixBreak p ∧
    (∀ q ∈ (runTrial t).2, phaseIdx q ≤ phaseIdx p) ∧
    Phase.response ∉ (runTrial t).2 ∧
    Phase.feedback ∉ (runTrial t).2 ∧
    experimentLoop (t :: ts) = .fixBreak p :: experimentLoop ts := by
  have hmain : (runTrial t).1 = .fixBreak p ∧
      (∀ q ∈ (runTrial t).2, phaseIdx q ≤ phaseIdx p) ∧
      Phase.response ∉ (runTrial t).2 ∧
      Phase.feedback ∉ (runTrial t).2 := by
    obtain ⟨qs, a, rc, b1, b2, b3, b4, b5, b6⟩ := t
    simp only at hq ha
    subst hq ha
    revert p hp
    revert rc b1 b2 b3 b4 b5 b6
    decide
  refine ⟨hmain.1, hmain.2.1, hmain.2.2.1, hmain.2.2.2, ?_⟩
  simp [experimentLoop, hmain.1]

/-- C6 witness: a trial whose criterion-phase fixation check fails aborts at
`crit`, skips response and feedback, and the run continues with the next
trial (which completes). -/
theorem fixation_break_aborts_trial_witness :
    (runTrial ⟨false, true, true, true, true, true, false, true, true⟩).1 =
      .fixBreak .crit ∧
    (∀ q ∈ (runTrial
        ⟨false, true, true, true, true, true, false, true, true⟩).2,
      phaseIdx q ≤ phaseIdx .crit) ∧
    Phase.response ∉ (runTrial
      ⟨false, true, true, true, true, true, false, true, true⟩).2 ∧
    Phase.feedback ∉ (runTrial
      ⟨false, true, true, true, true, true, false, true, true⟩).2 ∧
    experimentLoop [⟨false, true, true, true, true, true, false, true, true⟩,
        ⟨false, true, false, true, true, true, true, true, true⟩] =
      .fixBreak .crit :: experimentLoop
        [⟨false, true, false, true, true, true, true, true, true⟩] :=
  fixation_break_aborts_trial
    ⟨false, true, true, true, true, true, false, true, true⟩
    [⟨false, true, false, true, true, true, true, true, true⟩]
    .crit rfl rfl (by rfl)

/-!
### Gaze response collection (src/experiment.py `TrialEngine.collect_response`)

After the initial fixation break, the `while not valid_response` loop polls
the tracker: it times out if no target has been acquired by
`fix_break_time + eye_target_wait`; a gaze sample inside a target window
acquires that target (`current_response`, `targ_time`); a sample inside a
*different* target window, a sample outside the acquired target's window, or
a lost gaze (`NaN`, e.g. a blink) sets `lost_target` — and `if lost_target:
break` exits the whole response loop, leaving `valid_response` false and the
response missing.  A target held past `eye_target_hold` yields a valid
response with `rt = fix_break_time`.  Euclidean distances are compared in
squared form to stay inside `ℚ`.
-/

/-- Squared distance, with `dist g pos < window` phrased as
`sqdist g pos < window * window` (equivalent for `window ≥ 0`). -/
def sqdist (a b : ℚ × ℚ) : ℚ :=
  (a.1 - b.1) * (a.1 - b.1) + (a.2 - b.2) * (a.2 - b.2)

/-- The `for i, pos in enumerate(self.p.eye_target_pos)` scan of one gaze
sample: updates `current_response` and `lost_target`.  `hasTarg` is
`targ_time is not None`. -/
def scanTargets (window : ℚ) (g : ℚ × ℚ) (hasTarg : Bool) :
    List (ℚ × ℚ) → ℕ → Option ℕ → Bool → Option ℕ × Bool
  | [], _, current, lost => (current, lost)
  | pos :: rest, i, current, lost =>
    if sqdist g pos < window * window then
      match current with
      | none => scanTargets window g hasTarg rest (i + 1) (some i) lost
      | some c =>
        if c ≠ i then scanTargets window g hasTarg rest (i + 1) current true
        else scanTargets window g hasTarg rest (i + 1) current lost
    else
      if hasTarg ∧ current = some i then
        scanTargets window g hasTarg rest (i + 1) current true
      else scanTargets window g hasTarg rest (i + 1) current lost

/-- Outcome of the gaze-response loop. -/
inductive GazeOutcome
  | timeout
  | lost
  | valid (response : ℕ) (rt : ℚ)
deriving DecidableEq

/-- The `while not valid_response` loop; `times n` is the response-clock
reading on iteration `n` and `gaze n` the tracker sample (`none` for `NaN`).
`none` overall means the fuel ran out. -/
def gazeResponseLoop (targets : List (ℚ × ℚ))
    (window hold wait fix_break_time : ℚ) (times : ℕ → ℚ)
    (gaze : ℕ → Option (ℚ × ℚ)) :
    ℕ → ℕ → Option ℕ → Option ℚ → Option GazeOutcome
  | 0, _, _, _ => none
  | fuel + 1, n, current, targ_time =>
    let now := times n
    if targ_time = none ∧ fix_break_time + wait < now then some .timeout
    else
      match gaze n with
      | none =>
        if targ_time ≠ none then some .lost
        else gazeResponseLoop targets window hold wait fix_break_time times
          gaze fuel (n + 1) current targ_time
      | some g =>
        match scanTargets window g targ_time.isSome targets 0 current
            false with
        | (current2, lost) =>
          if lost then some .lost
          else
            match current2 with
            | none => gazeResponseLoop targets window hold wait fix_break_time
                times gaze fuel (n + 1) none targ_time
            | some c =>
              match targ_time with
              | none => gazeResponseLoop targets window hold wait
                  fix_break_time times gaze fuel (n + 1) (some c) (some now)
              | some tt =>
                if tt + hold < now then some (.valid c fix_break_time)
                else gazeResponseLoop targets window hold wait fix_break_time
                  times gaze fuel (n + 1) (some c) targ_time

/-- The gaze stream of the C9 counterexample: one sample on target `0`, then
samples on target `1`. -/
def cexGaze : ℕ → Option (ℚ × ℚ) :=
  fun n => if n = 0 then some (0, 0) else some (10, 0)

/-- C9 counterexample: targets at `(0,0)` and `(10,0)` (window `1`, hold `1`,
`eye_target_wait = 10`, `fix_break_time = 0`, clock `times n = n`).  The gaze
acquires target `0` at `t = 0` and moves into target `1` at `t = 1`: the
collector returns `lost` — collection ends with the response missing — even
though the overall timeout (`10`) had not elapsed and restarting the very
same loop from the next sample would produce a valid response on target `1`.
-/
theorem gaze_lost_target_cex :
    gazeResponseLoop [(0, 0), (10, 0)] 1 1 10 0 (fun n => n) cexGaze 20 0
        none none = some .lost ∧
    ((1 : ℚ) < 0 + 10) ∧
    gazeResponseLoop [(0, 0), (10, 0)] 1 1 10 0 (fun n => n) cexGaze 18 1
        none none = some (.valid 1 0) := by
  refine ⟨?_, by norm_num, ?_⟩
  · norm_num [gazeResponseLoop, cexGaze, scanTargets, sqdist]
  · norm_num [gazeResponseLoop, cexGaze, scanTargets, sqdist]

/-- C9 (amended): whenever an iteration of the gaze-response loop reports a
lost target (gaze into a different target, out of the acquired target, or a
lost eye after acquisition), the loop returns `lost` immediately — response
collection ends with the response missing — irrespective of the remaining
fuel and of every gaze sample after that iteration. -/
theorem gaze_lost_target_ends_collection (targets : List (ℚ × ℚ))
    (window hold wait fix_break_time : ℚ) (times : ℕ → ℚ)
    (gaze gaze2 : ℕ → Option (ℚ × ℚ)) (fuel n : ℕ) (current : Option ℕ)
    (targ_time : Option ℚ) (g : ℚ × ℚ)
    (hto : ¬(targ_time = none ∧ fix_break_time + wait < times n))
    (hg : gaze n = some g)
    (hlost : (scanTargets window g targ_time.isSome targets 0 current
      false).2 = true)
    (hagree : ∀ m ≤ n, gaze2 m = gaze m) :
    gazeResponseLoop targets window hold wait fix_break_time times gaze
        (fuel + 1) n current targ_time = some .lost ∧
    gazeResponseLoop targets window hold wait fix_break_time times gaze2
        (fuel + 1) n current targ_time = some .lost := by
  have hg2 : gaze2 n = some g := by rw [hagree n (le_refl n), hg]
  rcases hscan : scanTargets window g targ_time.isSome targets 0 current
    false with ⟨c2, l⟩
  rw [hscan] at hlost
  simp only at hlost
  subst hlost
  have key : ∀ gz : ℕ → Option (ℚ × ℚ), gz n = some g →
      gazeResponseLoop targets window hold wait fix_break_time times gz
        (fuel + 1) n current targ_time = some .lost := by
    intro gz hgz
    rw [gazeResponseLoop]
    dsimp only
    rw [if_neg hto, hgz]
    dsimp only
    rw [hscan]
    rfl
  exact ⟨key gaze hg, key gaze2 hg2⟩

/-- C9 witness: the amended theorem instantiated at iteration `1` of the
counterexample run (target `0` acquired, gaze now on target `1`): the loop
ends with `lost` for the counterexample gaze stream and for a stream that
differs only after iteration `1`. -/
theorem gaze_lost_target_ends_collection_witness :
    gazeResponseLoop [(0, 0), (10, 0)] 1 1 10 0 (fun n => n) cexGaze
        (4 + 1) 1 (some 0) (some 0) = some .lost ∧
    gazeResponseLoop [(0, 0), (10, 0)] 1 1 10 0 (fun n => n)
        (fun m => if m ≤ 1 then cexGaze m else some (0, 0))
        (4 + 1) 1 (some 0) (some 0) = some .lost :=
  gaze_lost_target_ends_collection [(0, 0), (10, 0)] 1 1 10 0 (fun n => n)
    cexGaze (fun m => if m ≤ 1 then cexGaze m else some (0, 0)) 4 1 (some 0)
    (some 0) (10, 0)
    (by norm_num)
    (by norm_num [cexGaze])
    (by norm_num [scanTargets, sqdist])
    (by
      intro m hm
      have : m = 0 ∨ m = 1 := by omega
      rcases this with rfl | rfl <;> simp)

end Pulses
